import Mathlib

/-!
Shallow embedding of the German preposition quiz bot (`src/bot.py`) and
verification of the specification's claims about it.

Python strings are modelled as `List Char`; Python dicts keyed by strings or
user ids are modelled as association lists built only through an
insert-or-update operation (so keys stay unique, as in a Python dict);
raised exceptions are modelled with `Except`; `random.sample`, `random.choice`
and `random.shuffle` are modelled by explicit seed / oracle parameters.
-/

/-- Python strings are modelled as lists of characters. -/
abbrev Str := List Char

/-- Turn a Lean string literal into the character-list model. -/
def chars (s : String) : Str := s.data

/-- Whitespace characters recognised by Python `str.split()` / `str.strip()`
(the ASCII ones, which are the only ones relevant to this data). -/
def pyIsSpace (ch : Char) : Bool :=
  ch = ' ' || ch = '\t' || ch = '\n' || ch = '\r' || ch = '\x0b' || ch = '\x0c'

/-- Model of Python `s.replace("+", " + ")` (bot.py line 33). -/
def replacePlus : Str → Str
  | [] => []
  | ch :: rest =>
    if ch = '+' then ' ' :: '+' :: ' ' :: replacePlus rest
    else ch :: replacePlus rest

/-- Model of Python `s.strip()`: drop whitespace from both ends. -/
def pyStrip (s : Str) : Str :=
  ((s.dropWhile pyIsSpace).reverse.dropWhile pyIsSpace).reverse

/-- Accumulator loop implementing Python `s.split()` (no argument):
split on runs of whitespace, dropping empty pieces. -/
def pySplitWsAux : Str → Str → List Str
  | [], acc => if acc = [] then [] else [acc.reverse]
  | ch :: rest, acc =>
    if pyIsSpace ch then
      if acc = [] then pySplitWsAux rest []
      else acc.reverse :: pySplitWsAux rest []
    else pySplitWsAux rest (ch :: acc)

/-- Model of Python `s.split()` with no argument. -/
def pySplitWs (s : Str) : List Str := pySplitWsAux s []

/-- Model of Python `" ".join(parts)`. -/
def joinSpace : List Str → Str
  | [] => []
  | [w] => w
  | w :: ws => w ++ ' ' :: joinSpace ws

/-- Does the string begin with the separator `" + "`? -/
def startsWithSep : Str → Bool
  | a :: b :: c :: _ => decide (a = ' ') && decide (b = '+') && decide (c = ' ')
  | _ => false

/-- Model of the Python membership test `" + " in s`. -/
def containsPlusSep : Str → Bool
  | [] => false
  | ch :: rest => startsWithSep (ch :: rest) || containsPlusSep rest

/-- Structural helper for `s.split(" + ")`: returns the splits of `s`,
`s.drop 1` and `s.drop 2` together, so that cutting a three-character
separator at the head can recurse on an already-computed tail split. -/
def splitAux : Str → List Str × List Str × List Str
  | [] => ([[]], [[]], [[]])
  | a :: rest =>
    let t := splitAux rest
    let cur :=
      if startsWithSep (a :: rest) then [] :: t.2.2
      else
        match t.1 with
        | [] => [[a]]
        | w :: ws => (a :: w) :: ws
    (cur, t.1, t.2.1)

/-- Model of Python `s.split(" + ")`: cut at the leftmost occurrences of the
separator, keeping empty pieces. -/
def splitPlusSep (s : Str) : List Str := (splitAux s).1

/-- Model of Python `s.upper()` (ASCII case mapping, which agrees with Python
on the one-letter case codes this program compares against). -/
def upperStr (s : Str) : Str := s.map Char.toUpper

/-- The table lookup `case_mapping.get(case_code, 'unknown')`
(bot.py lines 47-53). -/
def case_mapping_get (code : Str) : String :=
  if code = chars "A" then "accusative"
  else if code = chars "D" then "dative"
  else if code = chars "G" then "genitive"
  else "unknown"

/-- The two normalisation lines of `parse_preposition_case`
(bot.py lines 33-34): insert spaces around `+`, strip, collapse whitespace. -/
def normalize_prep_string (s : Str) : Str :=
  joinSpace (pySplitWs (pyStrip (replacePlus s)))

/-- Model of `GermanVerbBot.parse_preposition_case` (bot.py lines 27-54).
Returns `none` for the `(None, None)` results; otherwise the trimmed left
part and the mapped case name. -/
def parse_preposition_case (prep_string : Str) : Option (Str × String) :=
  if prep_string = [] then none
  else
    let t := normalize_prep_string prep_string
    if containsPlusSep t then
      match splitPlusSep t with
      | [l, r] => some (pyStrip l, case_mapping_get (upperStr (pyStrip r)))
      | _ => none
    else none

/-- `caseName` as the specification words it: `A ↦ accusative`, `D ↦ dative`,
`G ↦ genitive`. -/
def caseName (ch : Char) : String :=
  if ch = 'A' then "accusative"
  else if ch = 'D' then "dative"
  else if ch = 'G' then "genitive"
  else "unknown"

/-- The three fixed distractor candidate pools (bot.py lines 59-63). -/
def accusative_pool : List Str :=
  [chars "auf", chars "für", chars "gegen", chars "durch", chars "ohne",
   chars "um", chars "an", chars "über"]

/-- Dative-governing candidate pool (bot.py line 61). -/
def dative_pool : List Str :=
  [chars "mit", chars "von", chars "zu", chars "bei", chars "nach",
   chars "aus", chars "vor", chars "an"]

/-- Two-way candidate pool (bot.py line 62). -/
def both_pool : List Str :=
  [chars "in", chars "über", chars "unter", chars "zwischen", chars "neben",
   chars "hinter", chars "vor"]

/-- The union of all pools into one candidate set (bot.py lines 65-67);
the Python set is modelled as the duplicate-free list of the pools. -/
def all_preps : List Str := (accusative_pool ++ dative_pool ++ both_pool).dedup

/-- Seed-driven model of `random.sample(pool, k)`: draw `k` elements without
replacement, each seed choosing the index of the next draw. -/
def pySample : List Nat → List Str → Nat → List Str
  | _, _, 0 => []
  | seeds, pool, Nat.succ k =>
    match pool with
    | [] => []
    | _ :: _ =>
      let i := seeds.headD 0 % pool.length
      pool.getD i [] :: pySample seeds.tail (pool.eraseIdx i) k

/-- Model of `generate_wrong_options` (bot.py lines 56-73): union the pools,
discard the correct preposition, sample `min 3 remaining` without
replacement. -/
def generate_wrong_options (seeds : List Nat) (correct_preposition : Str) : List Str :=
  let remaining := all_preps.erase correct_preposition
  pySample seeds remaining (min 3 remaining.length)

/-- A field value from the external source: a plain scalar, or a structured
object with optional nested `value` / `text` sub-fields. -/
inductive FieldVal where
  | scalar (s : Str)
  | obj (value : Option Str) (text : Option Str)
  deriving DecidableEq

/-- Python `a or b` on strings: `a` when non-empty, else `b`. -/
def pyOr (a b : Str) : Str := if a = [] then b else a

/-- Extraction of the optional translation / example fields
(bot.py lines 129-137): take the nested `value`, falling back to `text`, for
structured objects; coerce to a trimmed string, defaulting to empty. -/
def extract_text (field : Option FieldVal) : Str :=
  match field with
  | none => []
  | some (.scalar s) => if s = [] then [] else pyStrip s
  | some (.obj v t) =>
    let r := pyOr (v.getD []) (t.getD [])
    if r = [] then [] else pyStrip r

/-- One fetched record: its opaque id and the fields the loader reads
(`none` models an absent field). -/
structure AirtableRecord where
  rid : Str
  wordField : Option Str
  prepositionField : Option Str
  englishField : Option FieldVal
  exampleField : Option FieldVal
  deriving DecidableEq

/-- One vocabulary index entry (the dict built at bot.py lines 166-177).
The `word`, `example_de` and `record_id` fields are `Option` because the
built-in fallback entry omits those three dict keys. -/
structure WordEntry where
  word : Option Str
  preposition : Str
  gcase : String
  example_text : Str
  wrong_options : List Str
  difficulty : String
  english_translation : Str
  example_de : Option Str
  original_prep_format : Str
  record_id : Option Str
  deriving DecidableEq

/-- Model of `create_example_sentence` (bot.py lines 89-94). -/
def create_example_sentence (word preposition english_translation : Str) : Str :=
  if english_translation ≠ [] then
    chars "I " ++ english_translation ++ chars " something. (Ich " ++ word
      ++ ' ' :: preposition ++ chars " etwas.)"
  else
    chars "Ich " ++ word ++ ' ' :: preposition ++ chars " etwas."

/-- Processing of one fetched record (the loop body, bot.py lines 106-177):
`none` when the record is skipped, otherwise the composite key and the entry
inserted into the index under it. -/
def recordEntry (seeds : List Nat) (r : AirtableRecord) : Option (Str × WordEntry) :=
  match r.wordField, r.prepositionField with
  | some wraw, some praw =>
    let word := pyStrip wraw
    let prep_string := pyStrip praw
    if word = [] ∨ prep_string = [] then none
    else
      let english_translation := extract_text r.englishField
      let example_de := extract_text r.exampleField
      match parse_preposition_case prep_string with
      | none => none
      | some (preposition, gcase) =>
        if preposition = [] ∨ gcase = "" then none
        else
          let wrong_options := generate_wrong_options seeds preposition
          let ex := if example_de ≠ [] then example_de
                    else create_example_sentence word preposition english_translation
          let difficulty1 := if (chars "sich ").isPrefixOf word ∨ 8 < word.length
                             then "intermediate" else "beginner"
          let difficulty := if 'ä' ∈ word ∨ 'ö' ∈ word ∨ 'ü' ∈ word
                            then "advanced" else difficulty1
          some (word ++ '_' :: preposition,
            { word := some word, preposition := preposition, gcase := gcase,
              example_text := ex, wrong_options := wrong_options,
              difficulty := difficulty, english_translation := english_translation,
              example_de := some example_de, original_prep_format := prep_string,
              record_id := some r.rid })
  | _, _ => none

/-- Python dict assignment `d[k] = v` on an association list: update the
existing binding in place, else append. -/
def dictInsert {κ α : Type} [DecidableEq κ] (k : κ) (v : α) : List (κ × α) → List (κ × α)
  | [] => [(k, v)]
  | (k', v') :: rest => if k' = k then (k, v) :: rest else (k', v') :: dictInsert k v rest

/-- Python dict lookup (`d.get(k)` / `k in d`). -/
def dictLookup {κ α : Type} [DecidableEq κ] (k : κ) : List (κ × α) → Option α
  | [] => none
  | (k', v') :: rest => if k' = k then some v' else dictLookup k rest

/-- Python `del d[k]`. -/
def dictDelete {κ α : Type} [DecidableEq κ] (k : κ) : List (κ × α) → List (κ × α)
  | [] => []
  | (k', v') :: rest => if k' = k then rest else (k', v') :: dictDelete k rest

/-- One iteration of the loader's record loop: a skipped record increments
the skip counter, an accepted one is inserted under its composite key. -/
def processRecord (seeds : List Nat) (st : List (Str × WordEntry) × Nat)
    (r : AirtableRecord) : List (Str × WordEntry) × Nat :=
  match recordEntry seeds r with
  | none => (st.1, st.2 + 1)
  | some (k, v) => (dictInsert k v st.1, st.2)

/-- The loader's record loop, threading the per-record seed index. -/
def loadLoop (seedsFor : Nat → List Nat) :
    Nat → List (Str × WordEntry) × Nat → List AirtableRecord → List (Str × WordEntry) × Nat
  | _, st, [] => st
  | n, st, r :: rs => loadLoop seedsFor (n + 1) (processRecord (seedsFor n) st r) rs

/-- The load statistics the loader reports (total records seen, accepted
count, skipped count) and whether the fetch failed; mirrors the loader's
printed diagnostics. -/
structure LoadReport where
  total : Nat
  accepted : Nat
  skipped : Nat
  failed : Bool
  deriving DecidableEq

/-- A load outcome: the vocabulary index together with its report. -/
structure LoadResult where
  index : List (Str × WordEntry)
  report : LoadReport
  deriving DecidableEq

/-- The built-in fallback data (bot.py lines 186-197). Its single entry is
keyed by the bare word and its dict omits the `word`, `example_de` and
`record_id` keys, hence the `none` fields. -/
def fallback_words_data : List (Str × WordEntry) :=
  [(chars "achten",
    { word := none, preposition := chars "auf", gcase := "accusative",
      example_text := chars "I pay attention to something. (Ich achte auf etwas.)",
      wrong_options := [chars "für", chars "mit", chars "über"],
      difficulty := "beginner",
      english_translation := chars "pay attention to",
      example_de := none,
      original_prep_format := chars "auf + A",
      record_id := none })]

/-- Model of `load_words_from_airtable` (bot.py lines 96-197). The fetch is
passed in as an `Except`; on a fetch error the fallback index is returned
and the report marks the failure (the error branch prints no counts, so the
report carries zero totals and the fallback's accepted size). -/
def load_words_from_airtable (seedsFor : Nat → List Nat)
    (fetched : Except String (List AirtableRecord)) : LoadResult :=
  match fetched with
  | .ok records =>
    let st := loadLoop seedsFor 0 ([], 0) records
    ⟨st.1, ⟨records.length, st.1.length, st.2, false⟩⟩
  | .error _ =>
    ⟨fallback_words_data, ⟨0, fallback_words_data.length, 0, true⟩⟩

/-- The key/entry pairs of the records the loader accepts, in record order
(a bookkeeping view of the loop used to state last-write-wins). -/
def acceptedPairs (seedsFor : Nat → List Nat) : Nat → List AirtableRecord → List (Str × WordEntry)
  | _, [] => []
  | n, r :: rs =>
    match recordEntry (seedsFor n) r with
    | none => acceptedPairs seedsFor (n + 1) rs
    | some p => p :: acceptedPairs seedsFor (n + 1) rs

/-- The per-user pending quiz snapshot (bot.py lines 339-347). -/
structure QuizData where
  word : Str
  correct_preposition : Str
  example_text : Str
  gcase : String
  original_prep_format : Str
  english_translation : Str
  example_de : Str
  deriving DecidableEq

/-- The per-user statistics counters (bot.py lines 216-222). -/
structure UserStats where
  total_questions : Nat
  correct_answers : Nat
  streak : Nat
  best_streak : Nat
  deriving DecidableEq

/-- Model of `start_quiz` (bot.py lines 319-376): pick a random key, read the
entry, snapshot it as the user's pending quiz, and emit the shuffled option
list. `random.choice` on an empty index and the `word_data['word']` read on
an entry without that key both raise, modelled as errors. -/
def start_quiz (seed : Nat) (shuffle : List Str → List Str)
    (words_data : List (Str × WordEntry)) (user_id : Nat)
    (current_quiz : List (Nat × QuizData)) :
    Except String (List (Nat × QuizData) × List Str) :=
  match words_data with
  | [] => .error "IndexError: random.choice from an empty sequence"
  | _ :: _ =>
    let ks := words_data.map Prod.fst
    let unique_key := ks.getD (seed % ks.length) []
    match dictLookup unique_key words_data with
    | none => .error "KeyError: unique_key"
    | some word_data =>
      match word_data.word with
      | none => .error "KeyError: word"
      | some word =>
        let all_options := shuffle (word_data.preposition :: word_data.wrong_options)
        let quiz : QuizData :=
          { word := word, correct_preposition := word_data.preposition,
            example_text := word_data.example_text, gcase := word_data.gcase,
            original_prep_format := word_data.original_prep_format,
            english_translation := word_data.english_translation,
            example_de := word_data.example_de.getD [] }
        .ok (dictInsert user_id quiz current_quiz, all_options)

/-- One alternative-preposition record (the dict built at bot.py lines 81-86). -/
structure AltEntry where
  preposition : Str
  prep_format : Str
  example_text : Str
  english : Str
  deriving DecidableEq

/-- Model of `get_alternative_prepositions` (bot.py lines 75-87): scan the
index for entries sharing the word but with a different preposition. The
`data['word']` read raises `KeyError` on an entry without that key (as in
the fallback index), modelled as an error. -/
def get_alternative_prepositions (word current_preposition : Str) :
    List (Str × WordEntry) → Except String (List AltEntry)
  | [] => .ok []
  | (_, data) :: rest =>
    match data.word with
    | none => .error "KeyError: word"
    | some w =>
      if w = word ∧ data.preposition ≠ current_preposition then
        match get_alternative_prepositions word current_preposition rest with
        | .error e => .error e
        | .ok alts =>
          .ok ({ preposition := data.preposition,
                 prep_format := data.original_prep_format,
                 example_text := pyOr (data.example_de.getD []) data.example_text,
                 english := data.english_translation } :: alts)
      else get_alternative_prepositions word current_preposition rest

/-- The graded outcome rendered back to the user, carrying the data each
response message interpolates (bot.py lines 407-524). -/
inductive GradeResult where
  | noActiveSession : GradeResult
  | correct (word : Str) (original_prep_format : Str) (example_text : Str)
      (english_translation : Str) (streak : Nat)
      (correct_answers : Nat) (total_questions : Nat) : GradeResult
  | alsoCorrect (word : Str) (user_answer : Str) (alt_case_part : Str)
      (alt_example : Str) (original_prep_format : Str) (example_text : Str)
      (english_translation : Str) (streak : Nat)
      (correct_answers : Nat) (total_questions : Nat) : GradeResult
  | incorrect (word : Str) (original_prep_format : Str) (example_text : Str)
      (english_translation : Str) (has_alternatives : Bool)
      (correct_answers : Nat) (total_questions : Nat) : GradeResult
  deriving DecidableEq

/-- Model of `handle_quiz_answer` (bot.py lines 407-524). Returns the updated
session map, the updated statistics map and the outcome; a Python exception
surfaces as `.error`, with the mutations made before the raise preserved. -/
def handle_quiz_answer (words_data : List (Str × WordEntry)) (user_id : Nat)
    (user_answer : Str) (current_quiz : List (Nat × QuizData))
    (user_stats : List (Nat × UserStats)) :
    List (Nat × QuizData) × List (Nat × UserStats) × Except String GradeResult :=
  match dictLookup user_id current_quiz with
  | none => (current_quiz, user_stats, .ok .noActiveSession)
  | some quiz_data =>
    match dictLookup user_id user_stats with
    | none => (current_quiz, user_stats, .error "KeyError: user_stats")
    | some st0 =>
      let st1 : UserStats := { st0 with total_questions := st0.total_questions + 1 }
      let stats1 := dictInsert user_id st1 user_stats
      let is_correct := decide (user_answer = quiz_data.correct_preposition)
      match get_alternative_prepositions quiz_data.word quiz_data.correct_preposition words_data with
      | .error e => (current_quiz, stats1, .error e)
      | .ok alternatives =>
        let user_found_alternative := alternatives.any fun alt => decide (alt.preposition = user_answer)
        let example_text := pyOr quiz_data.example_de quiz_data.example_text
        if is_correct then
          let st2 : UserStats := { st1 with correct_answers := st1.correct_answers + 1,
                                            streak := st1.streak + 1 }
          let st3 : UserStats := if st2.best_streak < st2.streak
                                 then { st2 with best_streak := st2.streak } else st2
          let stats2 := dictInsert user_id st3 stats1
          (dictDelete user_id current_quiz, stats2,
            .ok (.correct quiz_data.word quiz_data.original_prep_format example_text
              quiz_data.english_translation st3.streak st3.correct_answers st3.total_questions))
        else if user_found_alternative then
          let st2 : UserStats := { st1 with correct_answers := st1.correct_answers + 1,
                                            streak := st1.streak + 1 }
          let st3 : UserStats := if st2.best_streak < st2.streak
                                 then { st2 with best_streak := st2.streak } else st2
          let stats2 := dictInsert user_id st3 stats1
          match alternatives.find? (fun alt => decide (alt.preposition = user_answer)) with
          | none => (current_quiz, stats2, .error "StopIteration")
          | some chosen_alt =>
            let alt_case_part := if containsPlusSep chosen_alt.prep_format
                                 then (splitPlusSep chosen_alt.prep_format).getD 1 []
                                 else []
            (dictDelete user_id current_quiz, stats2,
              .ok (.alsoCorrect quiz_data.word user_answer alt_case_part
                chosen_alt.example_text quiz_data.original_prep_format example_text
                quiz_data.english_translation st3.streak st3.correct_answers
                st3.total_questions))
        else
          let st2 : UserStats := { st1 with streak := 0 }
          let stats2 := dictInsert user_id st2 stats1
          (dictDelete user_id current_quiz, stats2,
            .ok (.incorrect quiz_data.word quiz_data.original_prep_format example_text
              quiz_data.english_translation (!alternatives.isEmpty)
              st2.correct_answers st2.total_questions))

/-- The statistics initialisation done by `handle_button_click`
(bot.py lines 386-392) before dispatching. -/
def init_user_stats (user_id : Nat) (user_stats : List (Nat × UserStats)) :
    List (Nat × UserStats) :=
  match dictLookup user_id user_stats with
  | none => dictInsert user_id ⟨0, 0, 0, 0⟩ user_stats
  | some _ => user_stats

/-- An answer button click: `handle_button_click` initialises the user's
statistics, then `handle_quiz_answer` grades the answer. -/
def submit_answer (words_data : List (Str × WordEntry)) (user_id : Nat)
    (user_answer : Str) (current_quiz : List (Nat × QuizData))
    (user_stats : List (Nat × UserStats)) :
    List (Nat × QuizData) × List (Nat × UserStats) × Except String GradeResult :=
  handle_quiz_answer words_data user_id user_answer current_quiz
    (init_user_stats user_id user_stats)

/-- The statistics counters observed for a user; a user with no entry reads
as the all-zero counters they would be initialised with. -/
def statsView (user_id : Nat) (user_stats : List (Nat × UserStats)) : UserStats :=
  (dictLookup user_id user_stats).getD ⟨0, 0, 0, 0⟩

/-- The mutable per-user state of the bot process. -/
structure SysState where
  current_quiz : List (Nat × QuizData)
  user_stats : List (Nat × UserStats)
  deriving DecidableEq

/-- The inbound button events that touch sessions and statistics. -/
inductive BotEvent where
  | newQuiz (seed : Nat) (user_id : Nat) : BotEvent
  | answer (user_id : Nat) (prep : Str) : BotEvent
  deriving DecidableEq

/-- One button-click event processed to completion (bot.py lines 378-405):
statistics are initialised first; a new-quiz click runs `start_quiz` (a raise
leaves the state with only the mutations already made); an answer click runs
the grader. -/
def bot_step (words_data : List (Str × WordEntry)) (shuffle : List Str → List Str)
    (st : SysState) : BotEvent → SysState
  | .newQuiz seed user_id =>
    let stats1 := init_user_stats user_id st.user_stats
    match start_quiz seed shuffle words_data user_id st.current_quiz with
    | .ok (quiz1, _) => ⟨quiz1, stats1⟩
    | .error _ => ⟨st.current_quiz, stats1⟩
  | .answer user_id prep =>
    let out := submit_answer words_data user_id prep st.current_quiz st.user_stats
    ⟨out.1, out.2.1⟩

/-- Discriminator for the incorrect grading outcome. -/
def GradeResult.isIncorrect : GradeResult → Bool
  | .incorrect .. => true
  | _ => false

/-- Folding the dict insertion over an explicit list of key/entry pairs
(a bookkeeping view of the loader's loop). -/
def insertAll {κ α : Type} [DecidableEq κ] (d : List (κ × α)) : List (κ × α) → List (κ × α)
  | [] => d
  | p :: ps => insertAll (dictInsert p.1 p.2 d) ps

example : parse_preposition_case (chars "auf + A") = some (chars "auf", "accusative") := by decide
example : parse_preposition_case (chars "über+A") = some (chars "über", "accusative") := by decide
example : parse_preposition_case (chars "auf + X") = some (chars "auf", "unknown") := by decide
example : parse_preposition_case (chars "a+b + A") = none := by decide
example : parse_preposition_case (chars " + A") = none := by decide
example : parse_preposition_case (chars "a  b + A") = some (chars "a b", "accusative") := by decide
example : parse_preposition_case (chars "nurascii") = none := by decide
example : parse_preposition_case (chars "a + B + c") = none := by decide
example : parse_preposition_case (chars "") = none := by decide

/-! ### Association-list (Python dict) lemmas -/

theorem dictLookup_eq_none_of_not_mem {κ α : Type} [DecidableEq κ] (k : κ)
    (d : List (κ × α)) (h : k ∉ d.map Prod.fst) : dictLookup k d = none := by
  induction d with
  | nil => rfl
  | cons p rest ih =>
    obtain ⟨k0, v0⟩ := p
    simp only [List.map_cons, List.mem_cons] at h
    push_neg at h
    have h0 : ¬ k0 = k := fun e => h.1 e.symm
    simp [dictLookup, h0, ih h.2]

theorem dictLookup_insert {κ α : Type} [DecidableEq κ] (k k' : κ) (v : α)
    (d : List (κ × α)) :
    dictLookup k' (dictInsert k v d) = if k = k' then some v else dictLookup k' d := by
  induction d with
  | nil => simp [dictInsert, dictLookup]
  | cons p rest ih =>
    obtain ⟨k0, v0⟩ := p
    by_cases h : k0 = k
    · subst h
      by_cases hk : k0 = k'
      · subst hk; simp [dictInsert, dictLookup]
      · simp [dictInsert, dictLookup, hk]
    · by_cases hk : k = k'
      · subst hk
        simp [dictInsert, dictLookup, h, ih]
      · by_cases h0 : k0 = k'
        · subst h0; simp [dictInsert, dictLookup, h, hk]
        · simp [dictInsert, dictLookup, h, hk, h0, ih]

theorem dictInsert_keys_mem {κ α : Type} [DecidableEq κ] (k x : κ) (v : α)
    (d : List (κ × α)) (h : x ∈ (dictInsert k v d).map Prod.fst) :
    x ∈ d.map Prod.fst ∨ x = k := by
  induction d with
  | nil => simpa [dictInsert] using h
  | cons p rest ih =>
    obtain ⟨k0, v0⟩ := p
    by_cases h0 : k0 = k
    · subst h0
      simp [dictInsert] at h ⊢
      tauto
    · simp only [dictInsert, if_neg h0, List.map_cons, List.mem_cons] at h ⊢
      rcases h with h | h
      · exact Or.inl (Or.inl h)
      · rcases ih h with h | h
        · exact Or.inl (Or.inr h)
        · exact Or.inr h

theorem dictInsert_keys_nodup {κ α : Type} [DecidableEq κ] (k : κ) (v : α)
    (d : List (κ × α)) (h : (d.map Prod.fst).Nodup) :
    ((dictInsert k v d).map Prod.fst).Nodup := by
  induction d with
  | nil => simp [dictInsert]
  | cons p rest ih =>
    obtain ⟨k0, v0⟩ := p
    simp only [List.map_cons, List.nodup_cons] at h
    by_cases h0 : k0 = k
    · subst h0
      simpa [dictInsert] using h
    · simp only [dictInsert, if_neg h0, List.map_cons, List.nodup_cons]
      refine ⟨fun hmem => ?_, ih h.2⟩
      rcases dictInsert_keys_mem k k0 v rest hmem with hm | hm
      · exact h.1 hm
      · exact h0 hm

theorem dictLookup_delete_self {κ α : Type} [DecidableEq κ] (k : κ)
    (d : List (κ × α)) (h : (d.map Prod.fst).Nodup) :
    dictLookup k (dictDelete k d) = none := by
  induction d with
  | nil => rfl
  | cons p rest ih =>
    obtain ⟨k0, v0⟩ := p
    simp only [List.map_cons, List.nodup_cons] at h
    by_cases h0 : k0 = k
    · subst h0
      simp only [dictDelete, if_pos rfl]
      exact dictLookup_eq_none_of_not_mem _ _ h.1
    · simp [dictDelete, dictLookup, h0, ih h.2]

/-! ### C1: fallback on fetch failure -/

/-- C1: when the fetch raises, the loader does not propagate the error: it
returns the built-in fallback index, which has at least one entry, and its
load report (total seen / accepted / skipped counts) marks the failure. -/
theorem c1_fallback_on_fetch_failure (seedsFor : Nat → List Nat) (msg : String) :
    (load_words_from_airtable seedsFor (Except.error msg)).index = fallback_words_data ∧
    1 ≤ (load_words_from_airtable seedsFor (Except.error msg)).index.length ∧
    (load_words_from_airtable seedsFor (Except.error msg)).report.failed = true ∧
    (load_words_from_airtable seedsFor (Except.error msg)).report.accepted =
      (load_words_from_airtable seedsFor (Except.error msg)).index.length ∧
    (load_words_from_airtable seedsFor (Except.error msg)).report.total = 0 ∧
    (load_words_from_airtable seedsFor (Except.error msg)).report.skipped = 0 :=
  ⟨rfl, Nat.le_refl 1, rfl, rfl, rfl, rfl⟩

/-! ### C10: start_quiz on an empty index -/

/-- C10: with an empty vocabulary index, `start_quiz` fails for every user
and every random outcome: `random.choice` on the empty key list raises, so
no quiz and no reportable payload is produced. -/
theorem c10_start_quiz_empty_index_raises (seed : Nat) (shuffle : List Str → List Str)
    (user_id : Nat) (current_quiz : List (Nat × QuizData)) :
    start_quiz seed shuffle [] user_id current_quiz =
      Except.error "IndexError: random.choice from an empty sequence" := rfl

/-! ### C9: loader-built entries vs the fallback entry -/

theorem recordEntry_some_fields (seeds : List Nat) (r : AirtableRecord) (k : Str)
    (v : WordEntry) (h : recordEntry seeds r = some (k, v)) :
    v.word.isSome = true ∧ v.example_de.isSome = true ∧ v.record_id.isSome = true := by
  simp only [recordEntry] at h
  split at h
  · split at h
    · exact absurd h (by simp)
    · split at h
      · exact absurd h (by simp)
      · split at h
        · exact absurd h (by simp)
        · simp only [Option.some.injEq, Prod.mk.injEq] at h
          obtain ⟨-, hv⟩ := h
          subst hv
          exact ⟨rfl, rfl, rfl⟩
  · exact absurd h (by simp)

theorem dictInsert_all {κ α : Type} [DecidableEq κ] (P : κ × α → Bool) (k : κ) (v : α)
    (d : List (κ × α)) (hd : d.all P = true) (hv : P (k, v) = true) :
    (dictInsert k v d).all P = true := by
  induction d with
  | nil => simp [dictInsert, hv]
  | cons p rest ih =>
    obtain ⟨k0, v0⟩ := p
    simp only [List.all_cons, Bool.and_eq_true] at hd
    by_cases h0 : k0 = k
    · subst h0; simp [dictInsert, hv, hd.2]
    · simp only [dictInsert, if_neg h0, List.all_cons, Bool.and_eq_true]
      exact ⟨hd.1, ih hd.2⟩

theorem loadLoop_all (P : Str × WordEntry → Bool)
    (hP : ∀ seeds r k v, recordEntry seeds r = some (k, v) → P (k, v) = true)
    (seedsFor : Nat → List Nat) :
    ∀ (records : List AirtableRecord) (n : Nat) (d : List (Str × WordEntry)) (c : Nat),
      d.all P = true → ((loadLoop seedsFor n (d, c) records).1).all P = true := by
  intro records
  induction records with
  | nil => intro n d c hd; exact hd
  | cons r rs ih =>
    intro n d c hd
    simp only [loadLoop, processRecord]
    rcases hre : recordEntry (seedsFor n) r with _ | ⟨k, v⟩
    · exact ih _ _ _ hd
    · exact ih _ _ _ (dictInsert_all P k v d hd (hP _ _ _ _ hre))

/-- C9: every fallback entry lacks the `word`, `example_de` and `record_id`
fields; entries built from successfully fetched records always carry all
three; consequently `start_quiz` on the fallback index and
`get_alternative_prepositions` over the fallback index both hit a missing
`word` key and fail instead of serving a quiz. -/
theorem c9_fallback_index_unusable :
    (fallback_words_data.all fun p =>
      p.2.word.isNone && p.2.example_de.isNone && p.2.record_id.isNone) = true ∧
    (∀ (seedsFor : Nat → List Nat) (records : List AirtableRecord),
      ((load_words_from_airtable seedsFor (Except.ok records)).index.all fun p =>
        p.2.word.isSome && p.2.example_de.isSome && p.2.record_id.isSome) = true) ∧
    (∀ (seedsFor : Nat → List Nat) (msg : String) (seed : Nat)
        (shuffle : List Str → List Str) (user_id : Nat)
        (current_quiz : List (Nat × QuizData)),
      start_quiz seed shuffle (load_words_from_airtable seedsFor (Except.error msg)).index
        user_id current_quiz = Except.error "KeyError: word") ∧
    (∀ word current_preposition,
      get_alternative_prepositions word current_preposition fallback_words_data =
        Except.error "KeyError: word") := by
  refine ⟨by decide, ?_, ?_, ?_⟩
  · intro seedsFor records
    show ((loadLoop seedsFor 0 ([], 0) records).1).all _ = true
    apply loadLoop_all _ ?_ seedsFor records 0 [] 0 rfl
    intro seeds r k v h
    have hf := recordEntry_some_fields seeds r k v h
    simp only [hf.1, hf.2.1, hf.2.2, Bool.and_self]
  · intro seedsFor msg seed shuffle user_id current_quiz
    show start_quiz seed shuffle fallback_words_data user_id current_quiz = _
    simp [start_quiz, fallback_words_data, Nat.mod_one, dictLookup]
  · intro word current_preposition
    rfl

/-! ### C8: distractor disjointness and size -/

theorem pySample_length : ∀ (k : Nat) (seeds : List Nat) (pool : List Str),
    k ≤ pool.length → (pySample seeds pool k).length = k := by
  intro k
  induction k with
  | zero => intro seeds pool _; rfl
  | succ k ih =>
    intro seeds pool h
    match pool with
    | [] => simp at h
    | p :: ps =>
      have hi : seeds.headD 0 % (ps.length + 1) < ps.length + 1 :=
        Nat.mod_lt _ (Nat.succ_pos _)
      have hrec : k ≤ ((p :: ps).eraseIdx (seeds.headD 0 % (ps.length + 1))).length := by
        rw [List.length_eraseIdx_of_lt (by simpa using hi)]
        simp only [List.length_cons] at h ⊢
        omega
      simp only [pySample, List.length_cons]
      rw [ih seeds.tail _ hrec]

theorem pySample_mem : ∀ (k : Nat) (seeds : List Nat) (pool : List Str) (x : Str),
    x ∈ pySample seeds pool k → x ∈ pool := by
  intro k
  induction k with
  | zero => intro _ _ _ h; simp [pySample] at h
  | succ k ih =>
    intro seeds pool x h
    match pool with
    | [] => simp [pySample] at h
    | p :: ps =>
      simp only [pySample, List.mem_cons] at h
      rcases h with h | h
      · subst h
        have hi : seeds.headD 0 % (p :: ps).length < (p :: ps).length :=
          Nat.mod_lt _ (by simp)
        rw [List.getD_eq_getElem?_getD, List.getElem?_eq_getElem hi]
        exact List.getElem_mem hi
      · exact List.mem_of_mem_eraseIdx (ih seeds.tail _ x h)

/-- C8: for every correct preposition and every random outcome, the generated
distractor list never contains the correct preposition; its length is exactly
`min 3 |pool minus correct|`; and the pool union holds at least 10 distinct
prepositions. -/
theorem c8_distractor_disjointness (seeds : List Nat) (correct_preposition : Str) :
    correct_preposition ∉ generate_wrong_options seeds correct_preposition ∧
    (generate_wrong_options seeds correct_preposition).length =
      min 3 (all_preps.erase correct_preposition).length ∧
    10 ≤ all_preps.length := by
  refine ⟨?_, ?_, by decide⟩
  · intro hmem
    have hx : correct_preposition ∈ all_preps.erase correct_preposition :=
      pySample_mem _ _ _ _ hmem
    exact (List.nodup_dedup (accusative_pool ++ dative_pool ++ both_pool)).not_mem_erase hx
  · exact pySample_length _ _ _ (Nat.min_le_right _ _)

/-! ### C6: composite-key uniqueness and last-write-wins -/

theorem loadLoop_fst_eq_insertAll (seedsFor : Nat → List Nat) :
    ∀ (records : List AirtableRecord) (n : Nat) (d : List (Str × WordEntry)) (c : Nat),
      (loadLoop seedsFor n (d, c) records).1 =
        insertAll d (acceptedPairs seedsFor n records) := by
  intro records
  induction records with
  | nil => intro n d c; rfl
  | cons r rs ih =>
    intro n d c
    rcases hre : recordEntry (seedsFor n) r with _ | ⟨k, v⟩
    · simp only [loadLoop, processRecord, acceptedPairs, hre]
      exact ih _ _ _
    · simp only [loadLoop, processRecord, acceptedPairs, hre, insertAll]
      exact ih _ _ _

theorem insertAll_keys_nodup {κ α : Type} [DecidableEq κ] (ps : List (κ × α)) :
    ∀ d : List (κ × α), (d.map Prod.fst).Nodup →
      ((insertAll d ps).map Prod.fst).Nodup := by
  induction ps with
  | nil => intro d h; exact h
  | cons p ps ih => intro d h; exact ih _ (dictInsert_keys_nodup _ _ _ h)

theorem dictLookup_insertAll {κ α : Type} [DecidableEq κ] (k : κ) (ps : List (κ × α)) :
    ∀ d : List (κ × α),
      dictLookup k (insertAll d ps) =
        (((ps.filter fun p => decide (p.1 = k)).getLast?).map Prod.snd).or
          (dictLookup k d) := by
  induction ps with
  | nil => intro d; rfl
  | cons p ps ih =>
    intro d
    simp only [insertAll, ih, List.filter_cons, dictLookup_insert]
    by_cases hp : p.1 = k
    · simp only [hp, if_pos rfl]
      rcases hlast : (ps.filter fun q => decide (q.1 = k)).getLast? with _ | q
      · have hnil : (ps.filter fun q => decide (q.1 = k)) = [] :=
          List.getLast?_eq_none_iff.mp hlast
        simp [hnil]
      · have hne : (ps.filter fun q => decide (q.1 = k)) ≠ [] := by
          intro hnil; rw [hnil] at hlast; exact absurd hlast (by simp)
        obtain ⟨q0, qs, hqs⟩ := List.exists_cons_of_ne_nil hne
        rw [hqs] at hlast ⊢
        simp [hlast]
    · simp [hp]

/-- C6: for every fetched record list, the loaded index has no duplicate
composite keys, and the value found under any key is the entry contributed by
the last accepted record that produced that key (last-write-wins). -/
theorem c6_composite_key_uniqueness (seedsFor : Nat → List Nat)
    (records : List AirtableRecord) (k : Str) :
    (((load_words_from_airtable seedsFor (Except.ok records)).index.map Prod.fst).Nodup) ∧
    dictLookup k (load_words_from_airtable seedsFor (Except.ok records)).index =
      ((acceptedPairs seedsFor 0 records).filter fun p => decide (p.1 = k)).getLast?.map
        Prod.snd := by
  constructor
  · show ((loadLoop seedsFor 0 ([], 0) records).1.map Prod.fst).Nodup
    rw [loadLoop_fst_eq_insertAll]
    exact insertAll_keys_nodup _ _ (by simp)
  · show dictLookup k (loadLoop seedsFor 0 ([], 0) records).1 = _
    rw [loadLoop_fst_eq_insertAll, dictLookup_insertAll]
    exact Option.or_none

/-! ### Grading-state lemmas shared by the session/statistics claims -/

theorem dictInsert_dictInsert_self {κ α : Type} [DecidableEq κ] (k : κ) (v w : α)
    (d : List (κ × α)) : dictInsert k v (dictInsert k w d) = dictInsert k v d := by
  induction d with
  | nil => simp [dictInsert]
  | cons p rest ih =>
    obtain ⟨k0, v0⟩ := p
    by_cases h0 : k0 = k
    · subst h0; simp [dictInsert]
    · simp [dictInsert, h0, ih]

theorem dictLookup_init_self (user_id : Nat) (s : List (Nat × UserStats)) :
    dictLookup user_id (init_user_stats user_id s) = some (statsView user_id s) := by
  unfold init_user_stats statsView
  rcases h : dictLookup user_id s with _ | st
  · simp [dictLookup_insert]
  · simp [h]

theorem statsView_init (uid user_id : Nat) (s : List (Nat × UserStats)) :
    statsView uid (init_user_stats user_id s) = statsView uid s := by
  unfold init_user_stats statsView
  rcases h : dictLookup user_id s with _ | st
  · rw [dictLookup_insert]
    by_cases he : user_id = uid
    · subst he; simp [h]
    · simp [he]
  · rfl

theorem statsView_insert (uid user_id : Nat) (v : UserStats)
    (s : List (Nat × UserStats)) :
    statsView uid (dictInsert user_id v s) =
      if user_id = uid then v else statsView uid s := by
  unfold statsView
  rw [dictLookup_insert]
  by_cases he : user_id = uid <;> simp [he]

/-- Branch analysis of one answer submission: exactly one of the five source
branches applies (no pending session; alternatives scan raised; exact match;
valid alternative; incorrect), with the state and outcome each produces. -/
theorem submit_answer_cases (wd : List (Str × WordEntry)) (uid : Nat) (ans : Str)
    (cq : List (Nat × QuizData)) (s : List (Nat × UserStats)) :
    (dictLookup uid cq = none ∧
      submit_answer wd uid ans cq s =
        (cq, init_user_stats uid s, Except.ok GradeResult.noActiveSession)) ∨
    (∃ qd e, dictLookup uid cq = some qd ∧
      get_alternative_prepositions qd.word qd.correct_preposition wd = Except.error e ∧
      submit_answer wd uid ans cq s =
        (cq,
         dictInsert uid
           { statsView uid s with
               total_questions := (statsView uid s).total_questions + 1 }
           (init_user_stats uid s),
         Except.error e)) ∨
    (∃ qd alts, dictLookup uid cq = some qd ∧
      get_alternative_prepositions qd.word qd.correct_preposition wd = Except.ok alts ∧
      ans = qd.correct_preposition ∧
      submit_answer wd uid ans cq s =
        (dictDelete uid cq,
         dictInsert uid
           ⟨(statsView uid s).total_questions + 1, (statsView uid s).correct_answers + 1,
            (statsView uid s).streak + 1,
            if (statsView uid s).best_streak < (statsView uid s).streak + 1
            then (statsView uid s).streak + 1 else (statsView uid s).best_streak⟩
           (init_user_stats uid s),
         Except.ok (GradeResult.correct qd.word qd.original_prep_format
           (pyOr qd.example_de qd.example_text) qd.english_translation
           ((statsView uid s).streak + 1) ((statsView uid s).correct_answers + 1)
           ((statsView uid s).total_questions + 1)))) ∨
    (∃ qd alts ca, dictLookup uid cq = some qd ∧
      get_alternative_prepositions qd.word qd.correct_preposition wd = Except.ok alts ∧
      ans ≠ qd.correct_preposition ∧
      alts.find? (fun alt => decide (alt.preposition = ans)) = some ca ∧
      submit_answer wd uid ans cq s =
        (dictDelete uid cq,
         dictInsert uid
           ⟨(statsView uid s).total_questions + 1, (statsView uid s).correct_answers + 1,
            (statsView uid s).streak + 1,
            if (statsView uid s).best_streak < (statsView uid s).streak + 1
            then (statsView uid s).streak + 1 else (statsView uid s).best_streak⟩
           (init_user_stats uid s),
         Except.ok (GradeResult.alsoCorrect qd.word ans
           (if containsPlusSep ca.prep_format
            then (splitPlusSep ca.prep_format).getD 1 [] else [])
           ca.example_text qd.original_prep_format
           (pyOr qd.example_de qd.example_text) qd.english_translation
           ((statsView uid s).streak + 1) ((statsView uid s).correct_answers + 1)
           ((statsView uid s).total_questions + 1)))) ∨
    (∃ qd alts, dictLookup uid cq = some qd ∧
      get_alternative_prepositions qd.word qd.correct_preposition wd = Except.ok alts ∧
      ans ≠ qd.correct_preposition ∧
      (alts.any fun alt => decide (alt.preposition = ans)) = false ∧
      submit_answer wd uid ans cq s =
        (dictDelete uid cq,
         dictInsert uid
           ⟨(statsView uid s).total_questions + 1, (statsView uid s).correct_answers, 0,
            (statsView uid s).best_streak⟩
           (init_user_stats uid s),
         Except.ok (GradeResult.incorrect qd.word qd.original_prep_format
           (pyOr qd.example_de qd.example_text) qd.english_translation
           (!alts.isEmpty) (statsView uid s).correct_answers
           ((statsView uid s).total_questions + 1)))) := by
  rcases hq : dictLookup uid cq with _ | qd
  · refine Or.inl ⟨rfl, ?_⟩
    simp only [submit_answer, handle_quiz_answer, hq]
  · have hst := dictLookup_init_self uid s
    rcases halt : get_alternative_prepositions qd.word qd.correct_preposition wd with e | alts
    · refine Or.inr (Or.inl ⟨qd, e, rfl, halt, ?_⟩)
      simp only [submit_answer, handle_quiz_answer, hq, hst, halt]
    · by_cases hc : ans = qd.correct_preposition
      · refine Or.inr (Or.inr (Or.inl ⟨qd, alts, rfl, halt, hc, ?_⟩))
        simp only [submit_answer, handle_quiz_answer, hq, hst, halt, hc, decide_True,
          if_true, dictInsert_dictInsert_self]
        by_cases hb : (statsView uid s).best_streak < (statsView uid s).streak + 1 <;>
          simp [hb]
      · cases hfound : alts.any fun alt => decide (alt.preposition = ans)
        · refine Or.inr (Or.inr (Or.inr (Or.inr ⟨qd, alts, rfl, halt, hc, hfound, ?_⟩)))
          simp only [submit_answer, handle_quiz_answer, hq, hst, halt, hfound,
            dictInsert_dictInsert_self]
          simp [hc]
        · have hex : ∃ x, x ∈ alts ∧ (fun alt => decide (alt.preposition = ans)) x = true := by
            simpa using List.any_eq_true.mp hfound
          have hsome : (alts.find? fun alt => decide (alt.preposition = ans)).isSome := by
            rw [List.find?_isSome]
            exact hex
          obtain ⟨ca, hca⟩ := Option.isSome_iff_exists.mp hsome
          refine Or.inr (Or.inr (Or.inr (Or.inl ⟨qd, alts, ca, rfl, halt, hc, hca, ?_⟩)))
          simp only [submit_answer, handle_quiz_answer, hq, hst, halt, hfound, hca,
            dictInsert_dictInsert_self]
          simp only [hc, decide_eq_true_eq, if_false]
          by_cases hb : (statsView uid s).best_streak < (statsView uid s).streak + 1 <;>
            simp [hb, hc]

/-! ### C4: no-session answers and session single-use -/

/-- C4: with no pending session, submitting returns the no-active-session
outcome and changes no user's statistics counters; and once a successful
submission has consumed the session, an immediately following submission by
the same user returns the no-active-session outcome and leaves every user's
counters unchanged. -/
theorem c4_session_single_use (wd : List (Str × WordEntry)) (uid : Nat) (x y : Str)
    (cq : List (Nat × QuizData)) (s : List (Nat × UserStats)) :
    (dictLookup uid cq = none →
      submit_answer wd uid x cq s =
        (cq, init_user_stats uid s, Except.ok GradeResult.noActiveSession) ∧
      ∀ u, statsView u (init_user_stats uid s) = statsView u s) ∧
    ((cq.map Prod.fst).Nodup →
      ∀ r, (submit_answer wd uid x cq s).2.2 = Except.ok r →
        r ≠ GradeResult.noActiveSession →
        (submit_answer wd uid y (submit_answer wd uid x cq s).1
            (submit_answer wd uid x cq s).2.1).2.2 =
          Except.ok GradeResult.noActiveSession ∧
        ∀ u, statsView u (submit_answer wd uid y (submit_answer wd uid x cq s).1
            (submit_answer wd uid x cq s).2.1).2.1 =
          statsView u (submit_answer wd uid x cq s).2.1) := by
  constructor
  · intro h
    rcases submit_answer_cases wd uid x cq s with ⟨-, heq⟩ | ⟨qd, e, hq, -, -⟩ |
      ⟨qd, alts, hq, -, -, -⟩ | ⟨qd, alts, ca, hq, -, -, -, -⟩ | ⟨qd, alts, hq, -, -, -, -⟩
    · exact ⟨heq, fun u => statsView_init u uid s⟩
    all_goals rw [h] at hq; cases hq
  · intro hnd r hr hne
    have hnone : dictLookup uid (dictDelete uid cq) = none :=
      dictLookup_delete_self uid cq hnd
    rcases submit_answer_cases wd uid x cq s with ⟨-, heq⟩ | ⟨qd, e, -, -, heq⟩ |
      ⟨qd, alts, -, -, -, heq⟩ | ⟨qd, alts, ca, -, -, -, -, heq⟩ |
      ⟨qd, alts, -, -, -, -, heq⟩
    · rw [heq] at hr
      simp only at hr
      cases hr
      exact absurd rfl hne
    · rw [heq] at hr
      simp at hr
    all_goals
      rw [heq]
      refine ⟨?_, fun u => ?_⟩
    all_goals simp only [submit_answer, handle_quiz_answer, hnone]
    all_goals rw [statsView_init]

/-- Witness for C4: a concrete correct answer consumes the session and the
immediate second submission reports no active session. -/
theorem c4_session_single_use_witness :
    (submit_answer [] 7 (chars "an")
        (submit_answer [] 7 (chars "an")
          [(7, ⟨chars "denken", chars "an", chars "Ich denke an dich.",
                "accusative", chars "an + A", chars "think of", []⟩)] []).1
        (submit_answer [] 7 (chars "an")
          [(7, ⟨chars "denken", chars "an", chars "Ich denke an dich.",
                "accusative", chars "an + A", chars "think of", []⟩)] []).2.1).2.2 =
      Except.ok GradeResult.noActiveSession :=
  ((c4_session_single_use [] 7 (chars "an") (chars "an")
      [(7, ⟨chars "denken", chars "an", chars "Ich denke an dich.",
            "accusative", chars "an + A", chars "think of", []⟩)] []).2
    (by decide)
    (GradeResult.correct (chars "denken") (chars "an + A")
      (chars "Ich denke an dich.") (chars "think of") 1 1 1)
    (by rfl) (by decide)).1

/-! ### C5: streak invariants -/

theorem bot_step_view (wd : List (Str × WordEntry)) (shuffle : List Str → List Str)
    (st : SysState) (e : BotEvent) (u : Nat) :
    (statsView u st.user_stats).best_streak ≤
      (statsView u (bot_step wd shuffle st e).user_stats).best_streak ∧
    ((statsView u st.user_stats).streak ≤ (statsView u st.user_stats).best_streak →
      (statsView u (bot_step wd shuffle st e).user_stats).streak ≤
        (statsView u (bot_step wd shuffle st e).user_stats).best_streak) := by
  cases e with
  | newQuiz seed user_id =>
    have hs : (bot_step wd shuffle st (BotEvent.newQuiz seed user_id)).user_stats =
        init_user_stats user_id st.user_stats := by
      simp only [bot_step]
      rcases start_quiz seed shuffle wd user_id st.current_quiz with _ | _ <;> rfl
    rw [hs, statsView_init]
    exact ⟨Nat.le_refl _, fun h => h⟩
  | answer user_id prep =>
    have hs : (bot_step wd shuffle st (BotEvent.answer user_id prep)).user_stats =
        (submit_answer wd user_id prep st.current_quiz st.user_stats).2.1 := rfl
    rw [hs]
    rcases submit_answer_cases wd user_id prep st.current_quiz st.user_stats with
      ⟨-, heq⟩ | ⟨qd, e, -, -, heq⟩ | ⟨qd, alts, -, -, -, heq⟩ |
      ⟨qd, alts, ca, -, -, -, -, heq⟩ | ⟨qd, alts, -, -, -, -, heq⟩ <;>
      rw [heq] <;> by_cases hu : user_id = u
    · rw [statsView_init]; exact ⟨Nat.le_refl _, fun h => h⟩
    · rw [statsView_init]; exact ⟨Nat.le_refl _, fun h => h⟩
    · subst hu
      rw [statsView_insert, if_pos rfl]
      exact ⟨Nat.le_refl _, fun h => h⟩
    · rw [statsView_insert, if_neg hu, statsView_init]
      exact ⟨Nat.le_refl _, fun h => h⟩
    · subst hu
      rw [statsView_insert, if_pos rfl]
      refine ⟨?_, fun h => ?_⟩ <;> dsimp only <;> split <;> omega
    · rw [statsView_insert, if_neg hu, statsView_init]
      exact ⟨Nat.le_refl _, fun h => h⟩
    · subst hu
      rw [statsView_insert, if_pos rfl]
      refine ⟨?_, fun h => ?_⟩ <;> dsimp only <;> split <;> omega
    · rw [statsView_insert, if_neg hu, statsView_init]
      exact ⟨Nat.le_refl _, fun h => h⟩
    · subst hu
      rw [statsView_insert, if_pos rfl]
      refine ⟨?_, fun h => ?_⟩ <;> dsimp only <;> omega
    · rw [statsView_insert, if_neg hu, statsView_init]
      exact ⟨Nat.le_refl _, fun h => h⟩

theorem submit_answer_incorrect_streak (wd : List (Str × WordEntry)) (uid : Nat)
    (ans : Str) (cq : List (Nat × QuizData)) (s : List (Nat × UserStats))
    (r : GradeResult) (hr : (submit_answer wd uid ans cq s).2.2 = Except.ok r)
    (hinc : r.isIncorrect = true) :
    (statsView uid (submit_answer wd uid ans cq s).2.1).streak = 0 := by
  rcases submit_answer_cases wd uid ans cq s with
    ⟨-, heq⟩ | ⟨qd, e, -, -, heq⟩ | ⟨qd, alts, -, -, -, heq⟩ |
    ⟨qd, alts, ca, -, -, -, -, heq⟩ | ⟨qd, alts, -, -, -, -, heq⟩ <;>
    rw [heq] at hr ⊢
  · simp only at hr
    cases hr
    simp [GradeResult.isIncorrect] at hinc
  · simp at hr
  · simp only at hr
    cases hr
    simp [GradeResult.isIncorrect] at hinc
  · simp only at hr
    cases hr
    simp [GradeResult.isIncorrect] at hinc
  · rw [statsView_insert, if_pos rfl]

/-- C5: starting from all-zero statistics, over every sequence of events the
current streak never exceeds the best streak, both are non-negative, the
best streak never decreases across a further event, and the current streak
is exactly 0 immediately after any incorrectly graded answer. -/
theorem c5_streak_invariants (wd : List (Str × WordEntry))
    (shuffle : List Str → List Str) (events : List BotEvent) (u : Nat) (e : BotEvent) :
    (statsView u ((events.foldl (bot_step wd shuffle) ⟨[], []⟩).user_stats)).streak ≤
      (statsView u ((events.foldl (bot_step wd shuffle) ⟨[], []⟩).user_stats)).best_streak ∧
    0 ≤ (statsView u ((events.foldl (bot_step wd shuffle) ⟨[], []⟩).user_stats)).streak ∧
    0 ≤ (statsView u ((events.foldl (bot_step wd shuffle) ⟨[], []⟩).user_stats)).best_streak ∧
    (statsView u ((events.foldl (bot_step wd shuffle) ⟨[], []⟩).user_stats)).best_streak ≤
      (statsView u (((events ++ [e]).foldl (bot_step wd shuffle) ⟨[], []⟩).user_stats)).best_streak ∧
    (∀ ans r,
      e = BotEvent.answer u ans →
      (submit_answer wd u ans
          (events.foldl (bot_step wd shuffle) ⟨[], []⟩).current_quiz
          (events.foldl (bot_step wd shuffle) ⟨[], []⟩).user_stats).2.2 = Except.ok r →
      r.isIncorrect = true →
      (statsView u (((events ++ [e]).foldl (bot_step wd shuffle) ⟨[], []⟩).user_stats)).streak
        = 0) := by
  have main : ∀ (es : List BotEvent) (st : SysState),
      (statsView u st.user_stats).streak ≤ (statsView u st.user_stats).best_streak →
      (statsView u ((es.foldl (bot_step wd shuffle) st).user_stats)).streak ≤
        (statsView u ((es.foldl (bot_step wd shuffle) st).user_stats)).best_streak := by
    intro es
    induction es with
    | nil => intro st h; exact h
    | cons ev evs ih =>
      intro st h
      exact ih _ ((bot_step_view wd shuffle st ev u).2 h)
  have happ : (events ++ [e]).foldl (bot_step wd shuffle) (⟨[], []⟩ : SysState) =
      bot_step wd shuffle (events.foldl (bot_step wd shuffle) ⟨[], []⟩) e := by
    rw [List.foldl_append]
    rfl
  refine ⟨main events ⟨[], []⟩ (Nat.le_refl 0), Nat.zero_le _, Nat.zero_le _, ?_, ?_⟩
  · rw [happ]
    exact (bot_step_view wd shuffle _ e u).1
  · intro ans r he hr hinc
    subst he
    rw [happ]
    exact submit_answer_incorrect_streak wd u ans _ _ r hr hinc

/-- Witness for C5: a concrete wrong answer after one quiz leaves the user's
current streak at exactly 0. -/
theorem c5_streak_invariants_witness :
    (statsView 7 ((([BotEvent.newQuiz 0 7] ++ [BotEvent.answer 7 (chars "auf")]).foldl
        (bot_step [(chars "denken_an",
          ⟨some (chars "denken"), chars "an", "accusative", chars "Ich denke an dich.",
           [], "beginner", chars "think of", some [], chars "an + A", some []⟩)] id)
        ⟨[], []⟩).user_stats)).streak = 0 :=
  (c5_streak_invariants
      [(chars "denken_an",
        ⟨some (chars "denken"), chars "an", "accusative", chars "Ich denke an dich.",
         [], "beginner", chars "think of", some [], chars "an + A", some []⟩)]
      id [BotEvent.newQuiz 0 7] 7 (BotEvent.answer 7 (chars "auf"))).2.2.2.2
    (chars "auf")
    (GradeResult.incorrect (chars "denken") (chars "an + A")
      (chars "Ich denke an dich.") (chars "think of") false 0 1)
    rfl (by rfl) (by rfl)

/-! ### C3: the alternative-acceptance scenario -/

/-- C3: with index entries (denken, an, accusative) and (denken, über,
accusative) and a pending session for denken/an, answering "über" grades as
correct-via-alternative: `correct_answers` and `streak` are each incremented
by one, and the result carries both the asked entry's example text
(`pyOr (ed1.getD []) ex1`, the session snapshot's `example_de or example`)
and the matched alternative entry's example text (`pyOr (ed2.getD []) ex2`). -/
theorem c3_alternative_acceptance (uid : Nat) (st : UserStats)
    (ex1 ex2 fmt1 fmt2 tr1 tr2 : Str) (ed1 ed2 : Option Str)
    (wo1 wo2 : List Str) (d1 d2 : String) (rid1 rid2 : Option Str) :
    submit_answer
      [(chars "denken_an",
        ⟨some (chars "denken"), chars "an", "accusative", ex1, wo1, d1, tr1, ed1, fmt1, rid1⟩),
       (chars "denken_über",
        ⟨some (chars "denken"), chars "über", "accusative", ex2, wo2, d2, tr2, ed2, fmt2, rid2⟩)]
      uid (chars "über")
      [(uid, ⟨chars "denken", chars "an", ex1, "accusative", fmt1, tr1, ed1.getD []⟩)]
      [(uid, st)] =
    ([],
     [(uid, ⟨st.total_questions + 1, st.correct_answers + 1, st.streak + 1,
        if st.best_streak < st.streak + 1 then st.streak + 1 else st.best_streak⟩)],
     Except.ok (GradeResult.alsoCorrect (chars "denken") (chars "über")
       (if containsPlusSep fmt2 then (splitPlusSep fmt2).getD 1 [] else [])
       (pyOr (ed2.getD []) ex2) fmt1 (pyOr (ed1.getD []) ex1) tr1
       (st.streak + 1) (st.correct_answers + 1) (st.total_questions + 1))) := by
  have hga : get_alternative_prepositions (chars "denken") (chars "an")
      [(chars "denken_an",
        ⟨some (chars "denken"), chars "an", "accusative", ex1, wo1, d1, tr1, ed1, fmt1, rid1⟩),
       (chars "denken_über",
        ⟨some (chars "denken"), chars "über", "accusative", ex2, wo2, d2, tr2, ed2, fmt2, rid2⟩)] =
      Except.ok [⟨chars "über", fmt2, pyOr (ed2.getD []) ex2, tr2⟩] := rfl
  have hv : statsView uid [(uid, st)] = st := by simp [statsView, dictLookup]
  have hdel : dictDelete uid
      [(uid, (⟨chars "denken", chars "an", ex1, "accusative", fmt1, tr1, ed1.getD []⟩ : QuizData))]
      = [] := by simp [dictDelete]
  have hinit : init_user_stats uid [(uid, st)] = [(uid, st)] := by
    simp [init_user_stats, dictLookup]
  rcases submit_answer_cases
      [(chars "denken_an",
        ⟨some (chars "denken"), chars "an", "accusative", ex1, wo1, d1, tr1, ed1, fmt1, rid1⟩),
       (chars "denken_über",
        ⟨some (chars "denken"), chars "über", "accusative", ex2, wo2, d2, tr2, ed2, fmt2, rid2⟩)]
      uid (chars "über")
      [(uid, ⟨chars "denken", chars "an", ex1, "accusative", fmt1, tr1, ed1.getD []⟩)]
      [(uid, st)] with
    ⟨hq, -⟩ | ⟨qd, e, hq, halt, -⟩ | ⟨qd, alts, hq, halt, hc, -⟩ |
    ⟨qd, alts, ca, hq, halt, hc, hca, heq⟩ | ⟨qd, alts, hq, halt, hc, hfound, -⟩
  · simp [dictLookup] at hq
  · have hq2 : (⟨chars "denken", chars "an", ex1, "accusative", fmt1, tr1,
        ed1.getD []⟩ : QuizData) = qd := by simpa [dictLookup] using hq
    subst hq2
    dsimp only at halt
    rw [hga] at halt
    simp at halt
  · have hq2 : (⟨chars "denken", chars "an", ex1, "accusative", fmt1, tr1,
        ed1.getD []⟩ : QuizData) = qd := by simpa [dictLookup] using hq
    subst hq2
    dsimp only at hc
    exact absurd hc (by decide)
  · have hq2 : (⟨chars "denken", chars "an", ex1, "accusative", fmt1, tr1,
        ed1.getD []⟩ : QuizData) = qd := by simpa [dictLookup] using hq
    subst hq2
    dsimp only at halt hc hca heq ⊢
    rw [hga] at halt
    cases halt
    have hfind : List.find? (fun alt => decide (alt.preposition = chars "über"))
        [(⟨chars "über", fmt2, pyOr (ed2.getD []) ex2, tr2⟩ : AltEntry)] =
        some ⟨chars "über", fmt2, pyOr (ed2.getD []) ex2, tr2⟩ := rfl
    rw [hfind] at hca
    cases hca
    rw [heq, hv, hdel, hinit]
    simp [dictInsert]
  · have hq2 : (⟨chars "denken", chars "an", ex1, "accusative", fmt1, tr1,
        ed1.getD []⟩ : QuizData) = qd := by simpa [dictLookup] using hq
    subst hq2
    dsimp only at halt
    rw [hga] at halt
    cases halt
    have hany : (List.any [(⟨chars "über", fmt2, pyOr (ed2.getD []) ex2, tr2⟩ : AltEntry)]
        fun alt => decide (alt.preposition = chars "über")) = true := rfl
    rw [hany] at hfound
    cases hfound

/-! ### Parser toolkit: replacePlus, splitPlusSep, containsPlusSep -/

theorem replacePlus_eq_self : ∀ x : Str, '+' ∉ x → replacePlus x = x := by
  intro x
  induction x with
  | nil => intro _; rfl
  | cons a x' ih =>
    intro h
    have ha : a ≠ '+' := fun e => h (by simp [e])
    have hx : '+' ∉ x' := fun hm => h (List.mem_cons_of_mem _ hm)
    simp [replacePlus, ha, ih hx]

theorem replacePlus_append : ∀ x y : Str, '+' ∉ x →
    replacePlus (x ++ y) = x ++ replacePlus y := by
  intro x
  induction x with
  | nil => intro y _; rfl
  | cons a x' ih =>
    intro y h
    have ha : a ≠ '+' := fun e => h (by simp [e])
    have hx : '+' ∉ x' := fun hm => h (List.mem_cons_of_mem _ hm)
    simp [replacePlus, ha, ih y hx]

theorem replacePlus_cons_plus (y : Str) :
    replacePlus ('+' :: y) = ' ' :: '+' :: ' ' :: replacePlus y := by
  simp [replacePlus]

theorem splitAux_snd_fst (s : Str) : (splitAux s).2.1 = (splitAux (s.drop 1)).1 := by
  cases s <;> rfl

theorem splitAux_snd_snd : ∀ s : Str, (splitAux s).2.2 = (splitAux (s.drop 2)).1 := by
  intro s
  cases s with
  | nil => rfl
  | cons a rest =>
    show (splitAux rest).2.1 = _
    rw [splitAux_snd_fst]
    rfl

theorem splitPlusSep_sep_head (a : Char) (r : Str) (h : startsWithSep (a :: r) = true) :
    splitPlusSep (a :: r) = [] :: splitPlusSep (r.drop 2) := by
  show (splitAux (a :: r)).1 = _
  simp only [splitAux, h, if_true]
  rw [splitAux_snd_snd]
  rfl

theorem splitPlusSep_cons_not (a : Char) (r : Str) (h : startsWithSep (a :: r) = false) :
    splitPlusSep (a :: r) =
      match splitPlusSep r with
      | [] => [[a]]
      | w :: ws => (a :: w) :: ws := by
  show (splitAux (a :: r)).1 = _
  simp only [splitAux, h, Bool.false_eq_true, if_false]
  rfl

theorem splitPlusSep_single (c : Char) : splitPlusSep [c] = [[c]] := by
  rw [splitPlusSep_cons_not c [] (by rfl)]
  rfl

theorem splitPlusSep_append_sep : ∀ (x y : Str), '+' ∉ x →
    splitPlusSep (x ++ ' ' :: '+' :: ' ' :: y) = x :: splitPlusSep y := by
  intro x
  induction x with
  | nil =>
    intro y _
    rw [List.nil_append, splitPlusSep_sep_head ' ' ('+' :: ' ' :: y) rfl]
    rfl
  | cons a x' ih =>
    intro y h
    have ha : a ≠ '+' := fun e => h (by simp [e])
    have hx : '+' ∉ x' := fun hm => h (List.mem_cons_of_mem _ hm)
    have hsws : startsWithSep (a :: (x' ++ ' ' :: '+' :: ' ' :: y)) = false := by
      cases x' with
      | nil => simp [startsWithSep]
      | cons b x'' =>
        have hb : b ≠ '+' := fun e => h (by simp [e])
        obtain ⟨c0, cs, hcons⟩ :
            ∃ c0 cs, x'' ++ ' ' :: '+' :: ' ' :: y = c0 :: cs := by
          cases x'' with
          | nil => exact ⟨' ', '+' :: ' ' :: y, rfl⟩
          | cons u us => exact ⟨u, us ++ ' ' :: '+' :: ' ' :: y, rfl⟩
        simp only [List.cons_append, hcons, startsWithSep, Bool.and_eq_false_iff]
        simp [hb]
    rw [List.cons_append, splitPlusSep_cons_not _ _ hsws, ih y hx]

theorem containsPlusSep_append_sep : ∀ (x y : Str),
    containsPlusSep (x ++ ' ' :: '+' :: ' ' :: y) = true := by
  intro x
  induction x with
  | nil => simp [containsPlusSep, startsWithSep]
  | cons a x' ih =>
    intro y
    rw [List.cons_append]
    show (startsWithSep (a :: (x' ++ ' ' :: '+' :: ' ' :: y)) ||
      containsPlusSep (x' ++ ' ' :: '+' :: ' ' :: y)) = true
    rw [ih y, Bool.or_true]

theorem splitPlusSep_length_one : ∀ s : Str, containsPlusSep s = false →
    (splitPlusSep s).length = 1 := by
  intro s
  induction s with
  | nil => intro _; rfl
  | cons a rest ih =>
    intro h
    simp only [containsPlusSep, Bool.or_eq_false_iff] at h
    rw [splitPlusSep_cons_not a rest h.1]
    have hl := ih h.2
    rcases hsp : splitPlusSep rest with _ | ⟨w, ws⟩
    · rw [hsp] at hl; cases hl
    · rw [hsp] at hl
      simp only [List.length_cons] at hl ⊢
      omega

theorem containsPlusSep_of_pair (s : Str) (l r : Str)
    (h : splitPlusSep s = [l, r]) : containsPlusSep s = true := by
  by_cases hc : containsPlusSep s = true
  · exact hc
  · have := splitPlusSep_length_one s (by simpa using hc)
    rw [h] at this
    cases this

/-! ### Parser toolkit: whitespace split, join, strip -/

theorem pySplitWsAux_word : ∀ (w r acc : Str), (∀ ch ∈ w, pyIsSpace ch = false) →
    pySplitWsAux (w ++ r) acc = pySplitWsAux r (w.reverse ++ acc) := by
  intro w
  induction w with
  | nil => intro r acc _; rfl
  | cons a w' ih =>
    intro r acc h
    have ha : pyIsSpace a = false := h a (by simp)
    have hw : ∀ ch ∈ w', pyIsSpace ch = false := fun ch hm => h ch (by simp [hm])
    rw [List.cons_append]
    show (if pyIsSpace a = true then _ else pySplitWsAux (w' ++ r) (a :: acc)) = _
    rw [if_neg (by simp [ha]), ih r (a :: acc) hw]
    simp

theorem pySplitWsAux_ws_nil : ∀ (sp r : Str), (∀ ch ∈ sp, pyIsSpace ch = true) →
    pySplitWsAux (sp ++ r) [] = pySplitWsAux r [] := by
  intro sp
  induction sp with
  | nil => intro r _; rfl
  | cons d sp' ih =>
    intro r h
    have hd : pyIsSpace d = true := h d (by simp)
    have hs : ∀ ch ∈ sp', pyIsSpace ch = true := fun ch hm => h ch (by simp [hm])
    rw [List.cons_append]
    show (if pyIsSpace d = true then
        (if ([] : Str) = [] then pySplitWsAux (sp' ++ r) []
         else ([] : Str).reverse :: pySplitWsAux (sp' ++ r) []) else _) = _
    rw [if_pos hd, if_pos rfl, ih r hs]

theorem pySplitWsAux_ws_acc (d : Char) (r acc : Str) (hd : pyIsSpace d = true)
    (hacc : acc ≠ []) :
    pySplitWsAux (d :: r) acc = acc.reverse :: pySplitWsAux r [] := by
  show (if pyIsSpace d = true then
      (if acc = [] then pySplitWsAux r [] else acc.reverse :: pySplitWsAux r [])
      else _) = _
  rw [if_pos hd, if_neg hacc]

theorem pySplitWsAux_tokens : ∀ (s acc : Str), (∀ ch ∈ acc, pyIsSpace ch = false) →
    ∀ t ∈ pySplitWsAux s acc, t ≠ [] ∧ ∀ ch ∈ t, pyIsSpace ch = false := by
  intro s
  induction s with
  | nil =>
    intro acc hacc t ht
    by_cases h : acc = []
    · subst h; simp [pySplitWsAux] at ht
    · simp only [pySplitWsAux, if_neg h, List.mem_singleton] at ht
      subst ht
      refine ⟨by simpa using h, fun ch hm => hacc ch (by simpa using hm)⟩
  | cons a rest ih =>
    intro acc hacc t ht
    by_cases hsp : pyIsSpace a = true
    · by_cases h : acc = []
      · subst h
        simp only [pySplitWsAux, if_pos hsp, if_pos rfl] at ht
        exact ih [] (by simp) t ht
      · simp only [pySplitWsAux, if_pos hsp, if_neg h, List.mem_cons] at ht
        rcases ht with ht | ht
        · subst ht
          refine ⟨by simpa using h, fun ch hm => hacc ch (by simpa using hm)⟩
        · exact ih [] (by simp) t ht
    · simp only [pySplitWsAux, if_neg hsp] at ht
      refine ih (a :: acc) ?_ t ht
      intro ch hm
      rcases List.mem_cons.mp hm with rfl | hm
      · simpa using hsp
      · exact hacc ch hm

theorem joinSpace_cons_cons (w w2 : Str) (ws : List Str) :
    joinSpace (w :: w2 :: ws) = w ++ ' ' :: joinSpace (w2 :: ws) := rfl

theorem joinSpace_cons_ne_nil (t : Str) (ts : List Str) (h : t ≠ []) :
    joinSpace (t :: ts) ≠ [] := by
  cases ts with
  | nil => exact h
  | cons t2 ts' =>
    rw [joinSpace_cons_cons]
    cases t with
    | nil => simp
    | cons a t' => simp

theorem pySplitWsAux_join :
    ∀ (ts : List Str) (tail : Str),
      (∀ t ∈ ts, t ≠ [] ∧ ∀ ch ∈ t, pyIsSpace ch = false) →
      (tail = [] ∨ ∃ d r', tail = d :: r' ∧ pyIsSpace d = true) →
      pySplitWsAux (joinSpace ts ++ tail) [] = ts ++ pySplitWsAux tail [] := by
  intro ts
  induction ts with
  | nil => intro tail _ _; rfl
  | cons t ts' ih =>
    intro tail hts htail
    have ht := hts t (by simp)
    cases ts' with
    | nil =>
      show pySplitWsAux (t ++ tail) [] = _
      rw [pySplitWsAux_word t tail [] ht.2]
      rcases htail with rfl | ⟨d, r', rfl, hd⟩
      · simp [pySplitWsAux, ht.1]
      · rw [pySplitWsAux_ws_acc d r' _ hd (by simpa using ht.1)]
        show _ = [t] ++ pySplitWsAux (d :: r') []
        rw [show pySplitWsAux (d :: r') [] = pySplitWsAux r' [] from by
          show (if pyIsSpace d = true then
              (if ([] : Str) = [] then pySplitWsAux r' [] else _) else _) = _
          rw [if_pos hd, if_pos rfl]]
        simp
    | cons t2 ts'' =>
      rw [joinSpace_cons_cons, List.append_assoc, List.cons_append,
        pySplitWsAux_word t _ [] ht.2,
        pySplitWsAux_ws_acc ' ' _ _ (by decide) (by simpa using ht.1)]
      rw [ih tail (fun u hu => hts u (by simp [hu])) htail]
      simp

theorem joinSpace_append_two :
    ∀ (ts : List Str) (t x y : Str),
      joinSpace ((t :: ts) ++ [x, y]) = joinSpace (t :: ts) ++ ' ' :: (x ++ ' ' :: y) := by
  intro ts
  induction ts with
  | nil => intro t x y; simp [joinSpace]
  | cons t2 ts'' ih =>
    intro t x y
    have h2 := ih t2 x y
    rw [List.cons_append] at h2
    rw [List.cons_append, List.cons_append, joinSpace_cons_cons, h2,
      joinSpace_cons_cons]
    simp

theorem joinSpace_head? (ts : List Str)
    (hts : ∀ t ∈ ts, t ≠ [] ∧ ∀ ch ∈ t, pyIsSpace ch = false) (hne : ts ≠ []) :
    ∃ a, (joinSpace ts).head? = some a ∧ pyIsSpace a = false := by
  cases ts with
  | nil => exact absurd rfl hne
  | cons t ts' =>
    have ht := hts t (by simp)
    cases t with
    | nil => exact absurd rfl ht.1
    | cons a t' =>
      refine ⟨a, ?_, ht.2 a (by simp)⟩
      cases ts' with
      | nil => rfl
      | cons t2 ts'' => rw [joinSpace_cons_cons]; rfl

theorem joinSpace_getLast? :
    ∀ ts : List Str, (∀ t ∈ ts, t ≠ [] ∧ ∀ ch ∈ t, pyIsSpace ch = false) → ts ≠ [] →
      ∃ d, (joinSpace ts).getLast? = some d ∧ pyIsSpace d = false := by
  intro ts
  induction ts with
  | nil => intro _ h; exact absurd rfl h
  | cons t ts' ih =>
    intro hts _
    have ht := hts t (by simp)
    cases ts' with
    | nil =>
      rcases hl : (joinSpace [t]).getLast? with _ | d
      · rw [List.getLast?_eq_none_iff] at hl
        exact absurd hl ht.1
      · exact ⟨d, rfl, ht.2 d (List.mem_of_getLast?_eq_some hl)⟩
    | cons t2 ts'' =>
      obtain ⟨d, hd, hdw⟩ := ih (fun u hu => hts u (by simp [hu])) (by simp)
      refine ⟨d, ?_, hdw⟩
      rw [joinSpace_cons_cons, List.getLast?_append]
      have hne2 : joinSpace (t2 :: ts'') ≠ [] :=
        joinSpace_cons_ne_nil t2 ts'' (hts t2 (by simp)).1
      rw [show (' ' :: joinSpace (t2 :: ts'') : Str) = [' '] ++ joinSpace (t2 :: ts'')
        from rfl, List.getLast?_append, hd]
      rfl

theorem pyStrip_eq_self (s : Str) (a d : Char) (hh : s.head? = some a)
    (ha : pyIsSpace a = false) (hl : s.getLast? = some d) (hd : pyIsSpace d = false) :
    pyStrip s = s := by
  cases s with
  | nil => cases hh
  | cons x m =>
    have hx : x = a := by simpa using hh
    subst hx
    have h1 : (x :: m).dropWhile pyIsSpace = x :: m := by
      rw [List.dropWhile_cons, if_neg (by simp [ha])]
    rcases hrev : (x :: m).reverse with _ | ⟨y, rr⟩
    · rw [List.reverse_eq_nil_iff] at hrev; cases hrev
    · have hy : y = d := by
        have := List.head?_reverse (x :: m)
        rw [hrev, hl] at this
        simpa using this
      subst hy
      have h2 : (y :: rr).dropWhile pyIsSpace = y :: rr := by
        rw [List.dropWhile_cons, if_neg (by simp [hd])]
      show (((x :: m).dropWhile pyIsSpace).reverse.dropWhile pyIsSpace).reverse = x :: m
      rw [h1, hrev, h2, ← hrev, List.reverse_reverse]

theorem pySplitWsAux_cons_not (a : Char) (r acc : Str) (h : pyIsSpace a = false) :
    pySplitWsAux (a :: r) acc = pySplitWsAux r (a :: acc) := by
  have := pySplitWsAux_word [a] r acc (by simpa using h)
  simpa using this

theorem pySplitWsAux_nil_acc (acc : Str) (h : acc ≠ []) :
    pySplitWsAux [] acc = [acc.reverse] := by
  simp [pySplitWsAux, h]

/-- The master parse computation: for a whitespace-normal, `+`-free, non-empty
preposition `p`, any amounts of whitespace around the `+`, and any case letter
`c`, the parser returns `p` verbatim with the mapped case of `c`. -/
theorem parse_preposition_case_sep (p : Str) (c : Char) (s1 s2 : Str)
    (hp : p ≠ []) (hplus : '+' ∉ p) (hnorm : joinSpace (pySplitWs p) = p)
    (hs1 : ∀ ch ∈ s1, pyIsSpace ch = true) (hs2 : ∀ ch ∈ s2, pyIsSpace ch = true)
    (hc1 : pyIsSpace c = false) (hc2 : c ≠ '+') :
    parse_preposition_case (p ++ (s1 ++ '+' :: (s2 ++ [c]))) =
      some (p, case_mapping_get [c.toUpper]) := by
  have hs1p : '+' ∉ s1 := fun hm => absurd (hs1 '+' hm) (by decide)
  have hs2p : '+' ∉ s2 := fun hm => absurd (hs2 '+' hm) (by decide)
  have htok := pySplitWsAux_tokens p [] (by simp)
  have htsne : pySplitWs p ≠ [] := by
    intro h
    rw [h] at hnorm
    exact hp (hnorm.symm.trans rfl)
  have hplus1 : '+' ∉ p ++ s1 := by
    intro hm
    rcases List.mem_append.mp hm with hm | hm
    · exact hplus hm
    · exact hs1p hm
  have hplus2 : '+' ∉ s2 ++ [c] := by
    intro hm
    rcases List.mem_append.mp hm with hm | hm
    · exact hs2p hm
    · simp only [List.mem_singleton] at hm
      exact hc2 hm.symm
  have hrep : replacePlus (p ++ (s1 ++ '+' :: (s2 ++ [c]))) =
      p ++ (s1 ++ ' ' :: '+' :: ' ' :: (s2 ++ [c])) := by
    rw [show p ++ (s1 ++ '+' :: (s2 ++ [c])) = (p ++ s1) ++ ('+' :: (s2 ++ [c])) from by
      simp]
    rw [replacePlus_append _ _ hplus1, replacePlus_cons_plus,
      replacePlus_eq_self _ hplus2]
    simp
  obtain ⟨a0, ha0, ha0w⟩ := joinSpace_head? (pySplitWs p) htok htsne
  rw [hnorm] at ha0
  have hhead : (p ++ (s1 ++ ' ' :: '+' :: ' ' :: (s2 ++ [c]))).head? = some a0 := by
    rw [List.head?_append, ha0]
    rfl
  have hlast : (p ++ (s1 ++ ' ' :: '+' :: ' ' :: (s2 ++ [c]))).getLast? = some c := by
    rw [show p ++ (s1 ++ ' ' :: '+' :: ' ' :: (s2 ++ [c])) =
      (p ++ (s1 ++ ' ' :: '+' :: ' ' :: s2)) ++ [c] from by simp,
      List.getLast?_concat]
  have hstrip := pyStrip_eq_self _ a0 c hhead ha0w hlast hc1
  have htail : s1 ++ ' ' :: '+' :: ' ' :: (s2 ++ [c]) = [] ∨
      ∃ d r', s1 ++ ' ' :: '+' :: ' ' :: (s2 ++ [c]) = d :: r' ∧ pyIsSpace d = true := by
    right
    cases s1 with
    | nil => exact ⟨' ', '+' :: ' ' :: (s2 ++ [c]), rfl, by decide⟩
    | cons d s1' =>
      exact ⟨d, s1' ++ ' ' :: '+' :: ' ' :: (s2 ++ [c]), rfl, hs1 d (by simp)⟩
  have hws1 : ∀ ch ∈ s1 ++ [' '], pyIsSpace ch = true := by
    intro ch hm
    rcases List.mem_append.mp hm with hm | hm
    · exact hs1 ch hm
    · simp only [List.mem_singleton] at hm
      subst hm
      decide
  have hws : pySplitWsAux (p ++ (s1 ++ ' ' :: '+' :: ' ' :: (s2 ++ [c]))) [] =
      pySplitWs p ++ [['+'], [c]] := by
    conv_lhs => rw [← hnorm]
    rw [pySplitWsAux_join (pySplitWs p) _ htok htail]
    congr 1
    rw [show s1 ++ ' ' :: '+' :: ' ' :: (s2 ++ [c]) =
      (s1 ++ [' ']) ++ ('+' :: ' ' :: (s2 ++ [c])) from by simp]
    rw [pySplitWsAux_ws_nil (s1 ++ [' ']) _ hws1]
    rw [pySplitWsAux_cons_not '+' _ [] (by decide)]
    rw [pySplitWsAux_ws_acc ' ' (s2 ++ [c]) ['+'] (by decide) (by simp)]
    rw [pySplitWsAux_ws_nil s2 [c] hs2]
    rw [pySplitWsAux_cons_not c [] [] hc1]
    rw [pySplitWsAux_nil_acc [c] (by simp)]
    rfl
  have hnormalized : normalize_prep_string (p ++ (s1 ++ '+' :: (s2 ++ [c]))) =
      p ++ ' ' :: '+' :: ' ' :: [c] := by
    unfold normalize_prep_string
    rw [hrep, hstrip]
    show joinSpace (pySplitWsAux (p ++ (s1 ++ ' ' :: '+' :: ' ' :: (s2 ++ [c]))) []) = _
    rw [hws]
    rcases hts : pySplitWs p with _ | ⟨t, ts'⟩
    · exact absurd hts htsne
    · rw [joinSpace_append_two ts' t ['+'] [c], ← hts, hnorm]
      rfl
  have hne0 : p ++ (s1 ++ '+' :: (s2 ++ [c])) ≠ [] := by
    cases p with
    | nil => exact absurd rfl hp
    | cons a p' => simp
  have hcontains : containsPlusSep (p ++ ' ' :: '+' :: ' ' :: [c]) = true :=
    containsPlusSep_append_sep p [c]
  have hsplit : splitPlusSep (p ++ ' ' :: '+' :: ' ' :: [c]) = [p, [c]] := by
    rw [splitPlusSep_append_sep p [c] hplus, splitPlusSep_single]
  obtain ⟨d0, hd0, hd0w⟩ := joinSpace_getLast? (pySplitWs p) htok htsne
  rw [hnorm] at hd0
  have hstp : pyStrip p = p := pyStrip_eq_self p a0 d0 ha0 ha0w hd0 hd0w
  have hstc : pyStrip [c] = [c] := pyStrip_eq_self [c] c c rfl hc1 rfl hc1
  unfold parse_preposition_case
  rw [if_neg hne0]
  simp only [hnormalized, hcontains, if_true, hsplit, hstp, hstc]
  rfl

/-! ### C2: parser round-trip (amended) and its counterexample -/

/-- C2 counterexample: the round-trip fails as literally stated. For
`p = "a+b"` (a preposition string containing '+') and for the empty
preposition the parse returns `none` instead of `(p, accusative)`; and for
`p = "a  b"` the left part is not returned verbatim — the internal
whitespace is collapsed. -/
theorem c2_parser_round_trip_counterexample :
    parse_preposition_case (chars "a+b" ++ ' ' :: '+' :: ' ' :: ['A']) = none ∧
    parse_preposition_case (chars "" ++ ' ' :: '+' :: ' ' :: ['A']) = none ∧
    parse_preposition_case (chars "a  b" ++ ' ' :: '+' :: ' ' :: ['A']) ≠
      some (chars "a  b", caseName 'A') ∧
    parse_preposition_case (chars "a  b" ++ ' ' :: '+' :: ' ' :: ['A']) =
      some (chars "a b", caseName 'A') := by decide

/-- C2 (amended): for every non-empty preposition string `p` that contains no
'+' and is whitespace-normal (equal to its own whitespace collapse), and
every case letter `c ∈ {A, D, G}`, parsing `p ++ " + " ++ c` returns
`(p, caseName c)`, and the same holds for the no-space form `p+c` and for
extra internal whitespace around the separator. -/
theorem c2_parser_round_trip_amended (p : Str) (c : Char)
    (hp : p ≠ []) (hplus : '+' ∉ p) (hnorm : joinSpace (pySplitWs p) = p)
    (hc : c ∈ ['A', 'D', 'G']) :
    parse_preposition_case (p ++ ' ' :: '+' :: ' ' :: [c]) = some (p, caseName c) ∧
    parse_preposition_case (p ++ '+' :: [c]) = some (p, caseName c) ∧
    parse_preposition_case (p ++ ' ' :: ' ' :: '+' :: ' ' :: ' ' :: [c]) =
      some (p, caseName c) := by
  have hc' : c = 'A' ∨ c = 'D' ∨ c = 'G' := by simpa using hc
  have hcase : case_mapping_get [c.toUpper] = caseName c := by
    rcases hc' with rfl | rfl | rfl <;> rfl
  have hc1 : pyIsSpace c = false := by rcases hc' with rfl | rfl | rfl <;> decide
  have hc2 : c ≠ '+' := by rcases hc' with rfl | rfl | rfl <;> decide
  refine ⟨?_, ?_, ?_⟩
  · have h := parse_preposition_case_sep p c [' '] [' '] hp hplus hnorm
      (by decide) (by decide) hc1 hc2
    rw [hcase] at h
    exact h
  · have h := parse_preposition_case_sep p c [] [] hp hplus hnorm
      (by simp) (by simp) hc1 hc2
    rw [hcase] at h
    exact h
  · have h := parse_preposition_case_sep p c [' ', ' '] [' ', ' '] hp hplus hnorm
      (by decide) (by decide) hc1 hc2
    rw [hcase] at h
    exact h

/-- Witness for the amended C2 at `p = "auf"`, `c = 'A'`. -/
theorem c2_parser_round_trip_witness :
    parse_preposition_case (chars "auf" ++ ' ' :: '+' :: ' ' :: ['A']) =
      some (chars "auf", caseName 'A') :=
  (c2_parser_round_trip_amended (chars "auf") 'A' (by decide) (by decide)
    (by decide) (by decide)).1

/-! ### C7: unknown case codes parse successfully -/

/-- C7: a right-hand case code other than A/D/G (after trimming and
upper-casing) is not a parse failure: whenever the normalised notation splits
into exactly two parts on `" + "` and the trimmed upper-cased right part is
none of the three codes, the parser succeeds with the sentinel `"unknown"`
(and never returns `none` for such inputs). -/
theorem c7_unknown_case_not_failure (s l r : Str) (h0 : s ≠ [])
    (hs : splitPlusSep (normalize_prep_string s) = [l, r])
    (hr1 : upperStr (pyStrip r) ≠ chars "A")
    (hr2 : upperStr (pyStrip r) ≠ chars "D")
    (hr3 : upperStr (pyStrip r) ≠ chars "G") :
    parse_preposition_case s = some (pyStrip l, "unknown") := by
  have hcontains : containsPlusSep (normalize_prep_string s) = true :=
    containsPlusSep_of_pair _ l r hs
  unfold parse_preposition_case
  rw [if_neg h0]
  simp only [hcontains, if_true, hs]
  unfold case_mapping_get
  rw [if_neg hr1, if_neg hr2, if_neg hr3]

/-- Witness for C7: `parse("auf + X")` returns `("auf", "unknown")`. -/
theorem c7_unknown_case_not_failure_witness :
    parse_preposition_case (chars "auf + X") = some (chars "auf", "unknown") := by
  rw [c7_unknown_case_not_failure (chars "auf + X") (chars "auf") (chars "X")
    (by decide) (by decide) (by decide) (by decide) (by decide)]
  decide
